import Mathlib

/-!
Shallow embedding of the decomposition / anomaly-detection / ensemble-forecasting
core of the opinet-oil-price-forecast repository, together with proofs checking
the natural-language specification against the code.

Sources embedded here:
* `src/forecasting/analysis/decomposition.py`
  (`_prepare_series`, `_calculate_seasonal_strength`, `_calculate_trend_strength`,
   `_cusum_detection`)
* `src/forecasting/analysis/outlier_detector.py`
  (`_statistical_detection`, `_domain_based_detection`, `_detect_consecutive_changes`,
   `_ensemble_detection`)
* `src/backend/app/models/oil_price_forecaster.py` (`ensemble_predict`, `forecast`)
* `src/backend/app/models/improved_seven_day_forecaster.py` (`forecast_seven_days_seoul`)
* `src/forecasting/models/arima_model.py` (`forecast`)

Conventions: machine floats are modelled as exact rationals (`ℚ`); a numpy /
pandas standard deviation (a square root, irrational in general) is passed as an
explicit parameter constrained by a hypothesis `std * std = variance ∧ 0 ≤ std`
wherever its exact value matters, while comparisons against a standard deviation
are embedded by the exactly equivalent comparison of squares; Python exceptions
are modelled by `Except` (or by the empty result where the source catches them);
`pandas` missing values (`NaN`) are modelled by `Option` or by the `false`
branch of the comparison they feed into, following IEEE semantics (`NaN > t` is
false).  `minQ`/`maxQ`/`absQ` mirror Python's `min`/`max`/`abs` and are used
instead of Mathlib's lattice operations so that every definition reduces in the
kernel.
-/

namespace OilForecast

attribute [local semireducible] Rat.mul Rat.add Rat.sub Rat.inv

/-- Python `min(a, b)` (also `np.minimum` on scalars). -/
def minQ (a b : ℚ) : ℚ := if a ≤ b then a else b

/-- Python `max(a, b)` (also `np.maximum` on scalars). -/
def maxQ (a b : ℚ) : ℚ := if a ≤ b then b else a

/-- Python `abs` / `np.abs` on a scalar. -/
def absQ (a : ℚ) : ℚ := if a < 0 then -a else a

/-- Mean of a list of rationals (`np.mean` / `pandas.Series.mean`); 0 on the
empty list (where numpy would produce `NaN`). -/
def listMean (l : List ℚ) : ℚ :=
  l.sum / (l.length : ℚ)

/-- Population variance (`np.var`, and the `ddof=0` variance inside
`scipy.stats.zscore` and `np.std`): mean of squared deviations from the mean. -/
def popVar (l : List ℚ) : ℚ :=
  listMean (l.map (fun x => (x - listMean l) * (x - listMean l)))

/-- Sample variance with `ddof=1` (`pandas.Series.var` / `.std()` squared,
default).  `pandas` returns `NaN` for fewer than two observations; that
degenerate case is mapped to 0 here and excluded by hypothesis where the
difference could matter. -/
def sampleVar (l : List ℚ) : ℚ :=
  if l.length < 2 then 0
  else (l.map (fun x => (x - listMean l) * (x - listMean l))).sum / ((l.length : ℚ) - 1)

/-- Ascending sort of the observations, as performed inside `np.median`,
`np.percentile` and `pandas.Series.quantile`.  Insertion sort is used so that
the definition reduces in the kernel. -/
def sortQ (l : List ℚ) : List ℚ :=
  l.insertionSort (· ≤ ·)

/-- Linear interpolation of a sorted value list at fractional position `h`:
the `interpolation='linear'` rule shared by `np.percentile` and
`pandas.Series.quantile`.  With `f = ⌊h⌋` the value is
`s[f] + (h - f)·(s[f+1] - s[f])`, where `s[f+1]` falls back to `s[f]` at the
right edge. -/
def interpAt (s : List ℚ) (h : ℚ) : ℚ :=
  let f : ℕ := h.floor.toNat
  let v0 := s.getD f 0
  let v1 := s.getD (f + 1) v0
  v0 + (h - (h.floor : ℚ)) * (v1 - v0)

/-- `pandas.Series.quantile(q)` = `np.percentile(·, 100·q)` with the default
linear interpolation: the sorted values interpolated at position `q·(n-1)`. -/
def quantile (q : ℚ) (l : List ℚ) : ℚ :=
  let s := sortQ l
  if s.length = 0 then 0
  else interpAt s (q * ((s.length - 1 : ℕ) : ℚ))

/-- `np.median`: middle element of the sorted values, or the average of the two
middle elements for an even count. -/
def medianQ (l : List ℚ) : ℚ :=
  let s := sortQ l
  let n := s.length
  if n = 0 then 0
  else if n % 2 = 1 then s.getD (n / 2) 0
  else (s.getD (n / 2 - 1) 0 + s.getD (n / 2) 0) / 2

/-- `np.clip(x, lo, hi)` = `min(hi, max(lo, x))`; also
`pandas.Series.clip(lower=lo, upper=hi)` elementwise. -/
def clipQ (lo hi x : ℚ) : ℚ := minQ hi (maxQ lo x)

/-! ## SeriesPreparer: `_prepare_series` in
`src/forecasting/analysis/decomposition.py` -/

/-- The winsorization step of `_prepare_series`: clip every value to the
`[1st, 99th]` percentile band of the series itself
(`clean_series.clip(lower=q01, upper=q99)`). -/
def winsorize (l : List ℚ) : List ℚ :=
  l.map (clipQ (quantile (1/100) l) (quantile (99/100) l))

/-- `TimeSeriesDecomposer._prepare_series`: drop missing values
(`series.dropna()`), raise (`ValueError`, the spec's `InsufficientDataError`)
when fewer than 100 clean observations remain — 100 is the hard-coded
`min_length` of the source, the spec's domain default — then winsorize at the
1st/99th percentiles. -/
def prepareSeries (raw : List (Option ℚ)) : Except String (List ℚ) :=
  let clean := raw.filterMap id
  if clean.length < 100 then
    Except.error "insufficient data: series shorter than 100 clean observations"
  else
    Except.ok (winsorize clean)

/-- Decidable equality for fallible results, so that concrete runs of
`prepareSeries` can be checked by evaluation. -/
instance {ε α : Type} [DecidableEq ε] [DecidableEq α] : DecidableEq (Except ε α) :=
  fun a b =>
    match a, b with
    | Except.ok x, Except.ok y =>
        if h : x = y then isTrue (by rw [h])
        else isFalse (fun hc => h (Except.ok.inj hc))
    | Except.error x, Except.error y =>
        if h : x = y then isTrue (by rw [h])
        else isFalse (fun hc => h (Except.error.inj hc))
    | Except.ok _, Except.error _ => isFalse (fun hc => Except.noConfusion hc)
    | Except.error _, Except.ok _ => isFalse (fun hc => Except.noConfusion hc)

/-! ## Strength scores: `_calculate_seasonal_strength` /
`_calculate_trend_strength` in `src/forecasting/analysis/decomposition.py` -/

/-- `_calculate_seasonal_strength`: `Var(seasonal) / (Var(seasonal) +
Var(residual))`, 0 when the two variances sum to 0, clamped by
`max(0.0, min(1.0, strength))`.  The component series are passed as their clean
observations (`pandas.var` skips `NaN` itself). -/
def seasonalStrength (seasonal residual : List ℚ) : ℚ :=
  let sv := sampleVar seasonal
  let rv := sampleVar residual
  if sv + rv = 0 then 0
  else maxQ 0 (minQ 1 (sv / (sv + rv)))

/-- `_calculate_trend_strength`: identical formula on the `dropna()`ed trend
and residual components. -/
def trendStrength (trend residual : List ℚ) : ℚ :=
  let tv := sampleVar trend
  let rv := sampleVar residual
  if tv + rv = 0 then 0
  else maxQ 0 (minQ 1 (tv / (tv + rv)))

/-! ## Level-shift structural breaks: `_cusum_detection` in
`src/forecasting/analysis/decomposition.py`

The source computes `mean_val = np.mean(values)` and uses `np.std(values)`
(population standard deviation, a square root); both are taken here as
parameters `mean` and `std`, to be constrained by `mean = listMean values`,
`0 ≤ std` and `std * std = popVar values` in the theorems that evaluate it. -/

/-- One iteration of the CUSUM loop of `_cusum_detection` at index `i`.
State: positive accumulator, negative accumulator, reported breaks
`(index, significance)` in order.  A break is reported when an accumulator
exceeds `h = 4·std`, provided `i ≥ min_segment_length` and
`breaks == [] or i - breaks[-1][1] >= min_segment_length` — note that
`breaks[-1][1]` is the previous break's significance, exactly as in the
source; on a reported break both accumulators are reset to zero. -/
def cusumStep (values : List ℚ) (minSeg : ℕ) (mean std : ℚ)
    (st : ℚ × ℚ × List (ℕ × ℚ)) (i : ℕ) : ℚ × ℚ × List (ℕ × ℚ) :=
  let h := 4 * std
  let cpos := maxQ 0 (st.1 + values.getD i 0 - mean - std / 2)
  let cneg := maxQ 0 (st.2.1 - values.getD i 0 + mean - std / 2)
  let breaks := st.2.2
  if cpos > h ∨ cneg > h then
    if minSeg ≤ i ∧ (breaks = [] ∨ (i : ℚ) - (breaks.getLastD (0, 0)).2 ≥ (minSeg : ℚ)) then
      (0, 0, breaks ++ [(i, maxQ cpos cneg / h)])
    else (cpos, cneg, breaks)
  else (cpos, cneg, breaks)

/-- `_cusum_detection`: run the CUSUM loop over indices `1, …, n-1` and return
the reported breaks (the source reports `(dates[i], significance)`; dates are
identified with their integer positions here). -/
def cusumDetection (values : List ℚ) (minSeg : ℕ) (mean std : ℚ) : List (ℕ × ℚ) :=
  ((List.range' 1 (values.length - 1)).foldl (cusumStep values minSeg mean std) (0, 0, [])).2.2

/-! ## Outlier detection: `src/forecasting/analysis/outlier_detector.py`

A detection result is modelled by its three parallel payload lists (positional
indices, scores, type labels); the remaining `OutlierResult` fields (dates,
values, count, percentage) are derived data not referenced by the claims. -/

/-- The parallel payload of an `OutlierResult`. -/
structure DetResult where
  indices : List ℕ
  scores : List ℚ
  types : List String
deriving DecidableEq

/-- The empty detection result (`_empty_result`). -/
def emptyDet : DetResult := ⟨[], [], []⟩

/-- `_statistical_detection` with `z_threshold` parameter (default 3.0).
A point is flagged when ANY of:
* `|z| > z_threshold`, with `z = (x - mean)/std` from `scipy.stats.zscore`
  (population `std`, passed as the parameter `std`; for a constant series the
  source produces `NaN` whose comparison is false, matched here because the
  deviation is then 0);
* `|0.6745·(x - median)/mad| > 3.5`; when `mad = 0` the source divides by zero,
  giving `±inf` for `x ≠ median` (flagged) and `NaN` for `x = median`
  (not flagged);
* `x` outside `[Q1 - 1.5·IQR, Q3 + 1.5·IQR]` (strict comparisons).
Scores are the z-scores of the flagged points, types all `"statistical"`. -/
def statisticalDetection (values : List ℚ) (std : ℚ) (zThr : ℚ) : DetResult :=
  let n := values.length
  let mean := listMean values
  let med := medianQ values
  let mad := medianQ (values.map (fun v => absQ (v - med)))
  let q1 := quantile (1/4) values
  let q3 := quantile (3/4) values
  let lo := q1 - 3/2 * (q3 - q1)
  let hi := q3 + 3/2 * (q3 - q1)
  let mask : ℕ → Bool := fun i =>
    let v := values.getD i 0
    decide (absQ (v - mean) / std > zThr) ||
    (if mad = 0 then decide (v ≠ med)
     else decide (absQ (6745/10000 * (v - med) / mad) > 7/2)) ||
    decide (v < lo) || decide (v > hi)
  let idxs := (List.range n).filter mask
  { indices := idxs
    scores := idxs.map (fun i => absQ (values.getD i 0 - mean) / std)
    types := idxs.map (fun _ => "statistical") }

/-- `series.pct_change().abs()` at position `i`, as a flag against threshold
`thr`: `false` at position 0 (`NaN`), `true` when the previous value is 0 and
the current is not (the source produces `±inf`, which exceeds any threshold),
`false` for `0/0` (`NaN`). -/
def bigChangeFlag (values : List ℚ) (thr : ℚ) (i : ℕ) : Bool :=
  if i = 0 ∨ values.length ≤ i then false
  else
    let prev := values.getD (i - 1) 0
    let cur := values.getD i 0
    if prev = 0 then decide (cur ≠ 0)
    else decide (absQ (cur / prev - 1) > thr)

/-- The absolute percentage change reported as a score
(`daily_changes[idx]` / `changes.iloc[idx]`).  Positions whose change is `NaN`
or `±inf` in the source (position 0 or a zero previous value) are mapped to 0;
they are never reported as scores for a series without zero values. -/
def changeScoreAt (values : List ℚ) (i : ℕ) : ℚ :=
  if i = 0 ∨ values.length ≤ i then 0
  else
    let prev := values.getD (i - 1) 0
    if prev = 0 then 0
    else absQ (values.getD i 0 / prev - 1)

/-- The absolute percentage change as an `Option` (`none` = `NaN`), used for
the `idxmax` scan inside `_detect_consecutive_changes`.  A zero previous value
with a nonzero current value yields `±inf` in the source; such series are
outside the scope of this embedding (noted where used). -/
def changeValAt (values : List ℚ) (i : ℕ) : Option ℚ :=
  if i = 0 ∨ values.length ≤ i then none
  else
    let prev := values.getD (i - 1) 0
    if prev = 0 then none
    else some (absQ (values.getD i 0 / prev - 1))

/-- `changes.iloc[s:e].idxmax()` on an integer-position index: the (absolute)
position of the first maximal non-`NaN` change in `[s, e)`; `none` when every
entry is `NaN` (where the source raises). -/
def idxmaxChange (values : List ℚ) (s e : ℕ) : Option ℕ :=
  ((List.range' s (e - s)).filterMap (fun j => (changeValAt values j).map ((j, ·)))).foldl
    (fun b p =>
      match b with
      | none => some p
      | some q => if p.2 > q.2 then some p else some q)
    none |>.map Prod.fst

/-- State of the `_detect_consecutive_changes` loop: current run length,
collected `(index, score)` pairs, and whether an exception was raised
(an out-of-range `iloc`, or `idxmax` on an all-`NaN` slice). -/
structure ConsecState where
  count : ℕ
  acc : List (ℕ × ℚ)
  raised : Bool

/-- One iteration of `_detect_consecutive_changes` at position `i`.  `NaN`
changes are skipped (`continue`, run length kept); a change above the 20%
threshold extends the run; otherwise a run of length ≥ 3 is flushed: with
`start_idx = max(0, i - count)` the source computes
`max_change_idx = start_idx + changes.iloc[start_idx:i].idxmax()`, where
`idxmax` returns the positional label (an absolute position), so `start_idx`
is added twice; the score is `changes.iloc[max_change_idx]`, raising when that
position is out of range. -/
def consecStep (values : List ℚ) (st : ConsecState) (i : ℕ) : ConsecState :=
  if st.raised then st
  else if i = 0 then st
  else
    let prev := values.getD (i - 1) 0
    let cur := values.getD i 0
    if prev = 0 ∧ cur = 0 then st
    else if bigChangeFlag values (1/5) i then { st with count := st.count + 1 }
    else if 3 ≤ st.count then
      let s := i - st.count
      match idxmaxChange values s i with
      | none => { st with raised := true }
      | some label =>
          let maxIdx := s + label
          if values.length ≤ maxIdx then { st with raised := true }
          else { count := 0, acc := st.acc ++ [(maxIdx, changeScoreAt values maxIdx)],
                 raised := false }
    else { st with count := 0 }

/-- `_detect_consecutive_changes`: `none` models the exception case
(propagated to `_domain_based_detection`'s handler). -/
def detectConsecutiveChanges (values : List ℚ) : Option (List (ℕ × ℚ)) :=
  let fin := (List.range values.length).foldl (consecStep values) ⟨0, [], false⟩
  if fin.raised then none else some fin.acc

/-- The daily-change rule of `_domain_based_detection`:
`series.pct_change().abs() > 0.10`. -/
def dailySpikeFlag (values : List ℚ) (i : ℕ) : Bool :=
  bigChangeFlag values (1/10) i

/-- The weekly-volatility rule of `_domain_based_detection`:
`series.rolling(7).std() > 0.15 * series.std()`.  Both sides are square roots
of variances, so the comparison is embedded as the exactly equivalent
comparison of `ddof=1` variances: `Var(window) > 0.15² · Var(series)`
(positions with an incomplete window are `NaN`, hence false). -/
def volatilityFlag (values : List ℚ) (i : ℕ) : Bool :=
  if i + 1 < 7 ∨ values.length ≤ i then false
  else
    let win := (values.drop (i + 1 - 7)).take 7
    decide (sampleVar win > (3/20) * (3/20) * sampleVar values)

/-- The daily-spike entries of `_domain_based_detection`: every index whose
daily change exceeds 10%, with the change as score. -/
def domainRule1 (values : List ℚ) : List (ℕ × ℚ × String) :=
  ((List.range values.length).filter (dailySpikeFlag values)).map
    (fun i => (i, changeScoreAt values i, "daily_spike"))

/-- The entries after the weekly-volatility rule: each volatility index not
already flagged is appended, with the rolling standard deviation at that index
(a square root, passed as the parameter `rollStd`) as score. -/
def domainRule12 (values : List ℚ) (rollStd : ℕ → ℚ) : List (ℕ × ℚ × String) :=
  domainRule1 values ++
  (((List.range values.length).filter (volatilityFlag values)).filter
      (fun i => decide (∀ q ∈ domainRule1 values, q.1 ≠ i))).map
    (fun i => (i, rollStd i, "volatility_spike"))

/-- The ordered `(index, score, type)` entries accumulated by
`_domain_based_detection`: daily-spike entries, then weekly-volatility
entries, then each consecutive-change index not already present. -/
def domainEntries (values : List ℚ) (rollStd : ℕ → ℚ) (consec : List (ℕ × ℚ)) :
    List (ℕ × ℚ × String) :=
  consec.foldl
    (fun acc p => if acc.any (fun q => decide (q.1 = p.1)) then acc
                  else acc ++ [(p.1, p.2, "supply_disruption")])
    (domainRule12 values rollStd)

/-- `_domain_based_detection`: the three price-series rules with first-wins
deduplication; any exception inside (raised by `_detect_consecutive_changes`,
or an out-of-range `series.index[i]` when assembling the result) is caught and
the empty result returned. -/
def domainDetection (values : List ℚ) (rollStd : ℕ → ℚ) : DetResult :=
  match detectConsecutiveChanges values with
  | none => emptyDet
  | some consec =>
      let entries := domainEntries values rollStd consec
      if entries.any (fun p => decide (values.length ≤ p.1)) then emptyDet
      else
        { indices := entries.map (·.1)
          scores := entries.map (fun p => p.2.1)
          types := entries.map (fun p => p.2.2) }

/-- Modelled from the spec: the density/partition-based
(`IsolationForest`) scorer is an external randomized sklearn estimator, not
code of this repository; per the spec it "returns the fraction `contamination`
of lowest-scoring points", which sklearn realizes by flagging exactly the
points whose anomaly score lies below the `100·contamination` percentile of
the fitted scores (`offset_ = np.percentile(score_samples(X),
100.0 * contamination)`).  The fitted scores — independent of `contamination`
— are the parameter. -/
def isoFlaggedCount (scores : List ℚ) (contamination : ℚ) : ℕ :=
  (scores.filter (fun s => decide (s < quantile contamination scores))).length

/-- `result.outlier_scores[i]` contributions for index `idx` from one method:
the scores paired with `idx` in the method's parallel lists, in order. -/
def methodHits (r : DetResult) (idx : ℕ) : List ℚ :=
  (r.indices.zip r.scores).filterMap (fun p => if p.1 = idx then some p.2 else none)

/-- The `f"{method}:{type}"` tags contributed for index `idx` by one named
method. -/
def methodTags (name : String) (r : DetResult) (idx : ℕ) : List String :=
  (r.indices.zip r.types).filterMap
    (fun p => if p.1 = idx then some (name ++ ":" ++ p.2) else none)

/-- `vote_counts[idx]` after the aggregation loop of `_ensemble_detection`:
one vote per occurrence of `idx` in a method's index list. -/
def voteCount (rs : List (String × DetResult)) (idx : ℕ) : ℕ :=
  (rs.map (fun r => r.2.indices.count idx)).sum

/-- `score_sums[idx]` after the aggregation loop. -/
def scoreSum (rs : List (String × DetResult)) (idx : ℕ) : ℚ :=
  (rs.map (fun r => (methodHits r.2 idx).sum)).sum

/-- `type_info[idx]` after the aggregation loop: the method:type tags in
method order. -/
def tagJoin (rs : List (String × DetResult)) (idx : ℕ) : List String :=
  (rs.map (fun r => methodTags r.1 r.2 idx)).flatten

/-- `all_indices`: the set of indices seen by any method.  The source stores a
Python `set` (unordered); it is modelled by first-occurrence deduplication, and
every property proved about it is order-insensitive (membership only). -/
def allIdx (rs : List (String × DetResult)) : List ℕ :=
  ((rs.map (fun r => r.2.indices)).flatten).dedup

/-- The vote-based combination step of `_ensemble_detection`: keep the indices
with at least `min_votes` votes; per kept index the score is
`score_sums[idx] / vote_counts[idx]` and the type is
`','.join(type_info[idx])`. -/
def combineVotes (rs : List (String × DetResult)) (minVotes : ℕ) : DetResult :=
  let keep := (allIdx rs).filter (fun idx => decide (minVotes ≤ voteCount rs idx))
  { indices := keep
    scores := keep.map (fun idx => scoreSum rs idx / (voteCount rs idx : ℚ))
    types := keep.map (fun idx => String.intercalate "," (tagJoin rs idx)) }

/-- `_ensemble_detection`: run the three methods — the isolation forest is the
opaque randomized component, passed as `isoResult` — and combine by votes
(`min_votes` defaults to 2); the statistical method runs at its default
threshold 3. -/
def ensembleDetection (values : List ℚ) (std : ℚ) (rollStd : ℕ → ℚ)
    (isoResult : DetResult) (minVotes : ℕ) : DetResult :=
  combineVotes
    [("iso", isoResult),
     ("stat", statisticalDetection values std 3),
     ("domain", domainDetection values rollStd)] minVotes

/-- The methods, in order, whose index list contains `idx` (the contributing
methods for that index). -/
def contributing (rs : List (String × DetResult)) (idx : ℕ) : List (String × DetResult) :=
  rs.filter (fun r => decide (idx ∈ r.2.indices))

/-- The score a method pairs with `idx` (unique when the method's indices have
no duplicates). -/
def methodScore (r : DetResult) (idx : ℕ) : ℚ := (methodHits r idx).headD 0

/-- The type label a method pairs with `idx`. -/
def methodType (r : DetResult) (idx : ℕ) : String :=
  ((r.indices.zip r.types).filterMap
    (fun p => if p.1 = idx then some p.2 else none)).headD ""

/-! ## Ensemble forecast combination: `ensemble_predict` and `forecast` in
`src/backend/app/models/oil_price_forecaster.py`

A component model is modelled by its name together with the prediction it
produces on the current input (`none` when the branch hits `continue`: an
unsupported model kind, or the LSTM branch without TensorFlow).  The per-target
performance record `self.model_performance[target_col]` is an association list
from model name to recorded MAE, and is `none` when the target has no
performance entry at all. -/

/-- The per-model weight of `ensemble_predict`:
`1 / (1 + perf.get(model_name, {}).get('mae', 1))` when the target has a
performance map, `1.0` otherwise. -/
def preWeight (perf : Option (List (String × ℚ))) (name : String) : ℚ :=
  match perf with
  | none => 1
  | some m => 1 / (1 + ((m.lookup name).getD 1))

/-- The models that contribute a prediction (those not skipped by
`continue`), in iteration order. -/
def survivors (models : List (String × Option (List ℚ))) : List (String × List ℚ) :=
  models.filterMap (fun p => p.2.map (fun pred => (p.1, pred)))

/-- The pre-normalization weights collected alongside the predictions. -/
def rawWeights (models : List (String × Option (List ℚ)))
    (perf : Option (List (String × ℚ))) : List ℚ :=
  (survivors models).map (fun p => preWeight perf p.1)

/-- `weights = weights / weights.sum()`. -/
def normWeights (models : List (String × Option (List ℚ)))
    (perf : Option (List (String × ℚ))) : List ℚ :=
  let ws := rawWeights models perf
  ws.map (· / ws.sum)

/-- `ensemble_predict`: `np.array([])` — the empty list — when no model
survives; otherwise the per-step weighted average
`np.average(predictions, axis=0, weights)` of the surviving predictions with
the normalized weights (`np.average` divides by the sum of the weights it is
given). -/
def ensemblePredict (models : List (String × Option (List ℚ)))
    (perf : Option (List (String × ℚ))) : List ℚ :=
  let preds := survivors models
  if preds.isEmpty then []
  else
    let nws := normWeights models perf
    let horizon := ((preds.map Prod.snd).headD []).length
    (List.range horizon).map (fun j =>
      ((nws.zip (preds.map Prod.snd)).map (fun p => p.1 * p.2.getD j 0)).sum / nws.sum)

/-- The per-fuel loop of `forecast`: a fuel type is included in the returned
forecast map only when its ensemble prediction is non-empty
(`if len(prediction) > 0`); a unit whose prediction is empty is skipped and
the remaining units proceed. -/
def fuelForecasts
    (units : List (String × List (String × Option (List ℚ)) × Option (List (String × ℚ)))) :
    List (String × List ℚ) :=
  units.filterMap (fun u =>
    let p := ensemblePredict u.2.1 u.2.2
    if p.isEmpty then none else some (u.1, p))

/-! ## ARIMA forecast: `forecast` in `src/forecasting/models/arima_model.py`

The fitted statsmodels model is opaque; its output — the point forecasts and
the optional native confidence bounds (`conf_int` is `None` when
`model.forecast` did not return a tuple) — is a parameter, as is the residual
standard deviation `residual_std = self.model_result.residuals.std()` (a
square root, constrained in the theorems by `rstd * rstd = sampleVar residuals`
and `0 ≤ rstd`).  Dates are modelled by day ordinals. -/

/-- The `(forecast dates, point forecast, confidence bounds)` payload of an
`ARIMAForecastResult`. -/
structure ARIMAForecast where
  series : List (ℕ × ℚ)
  confidence : List (ℕ × ℚ × ℚ)
deriving DecidableEq

/-- `ARIMAForecaster.forecast(steps, exog, alpha)`: raises when the model is
not fitted; forecast dates are `pd.date_range(start=last_date + 1 day,
periods=steps, freq='D')`; when no native confidence bounds are available the
band is `forecast ∓ 1.96 * residual_std`. -/
def arimaForecast (isFitted : Bool) (forecastValues : List ℚ)
    (confInt : Option (List (ℚ × ℚ))) (residualStd : ℚ) (lastDate steps : ℕ) :
    Except String ARIMAForecast :=
  if !isFitted then Except.error "model not fitted: call fit() first"
  else
    let dates := (List.range steps).map (fun i => lastDate + 1 + i)
    let conf := match confInt with
      | some ci => dates.zip ci
      | none => (dates.zip forecastValues).map
          (fun p => (p.1, p.2 - 49/25 * residualStd, p.2 + 49/25 * residualStd))
    Except.ok ⟨dates.zip forecastValues, conf⟩

/-! ## Seoul seven-day forecast: `forecast_seven_days_seoul` in
`src/backend/app/models/improved_seven_day_forecaster.py` -/

/-- Python `round` to the nearest integer, ties to even (banker's rounding). -/
def bankerRound (q : ℚ) : ℤ :=
  let f := q.floor
  let r := q - (f : ℚ)
  if r < 1/2 then f
  else if 1/2 < r then f + 1
  else if f % 2 = 0 then f else f + 1

/-- Python `round(x, 2)`. -/
def round2 (q : ℚ) : ℚ :=
  ((bankerRound (q * 100) : ℤ) : ℚ) / 100

/-- The per-day price computation of `forecast_seven_days_seoul` (before the
final `round(·, 2)`): trend, seasonal, external and Seoul-premium components
added to the current price, then `np.clip` to
`current ± current·0.02·day`.  The component rates (`trend`,
`seasonal_factor`, `external_impact`) are arbitrary parameters. -/
def sevenDayForecastPrice (current trend seasonalFactor externalImpact : ℚ)
    (day : ℕ) : ℚ :=
  let trendComponent := trend * current * (day : ℚ)
  let seasonalComponent := current * seasonalFactor
  let externalComponent := current * externalImpact
  let seoulPremium := (108/100 - 1) * current * (1/10)
  let raw := current + trendComponent + seasonalComponent + externalComponent + seoulPremium
  let dailyLimit := current * (2/100) * (day : ℚ)
  clipQ (current - dailyLimit) (current + dailyLimit) raw

/-- The price actually stored in the forecast entry: `round(forecast_price, 2)`. -/
def sevenDayRoundedPrice (current trend seasonalFactor externalImpact : ℚ)
    (day : ℕ) : ℚ :=
  round2 (sevenDayForecastPrice current trend seasonalFactor externalImpact day)

/-! ## Concrete evaluation inputs -/

/-- A 10-point series, for the short-series rejection scenario. -/
def tenPoints : List ℚ := List.replicate 10 1700

/-- A 101-point series: `(n-1)` is a multiple of 100, so both percentile
positions are integral. -/
def w101 : List ℚ := (List.range 101).map (fun i => (i : ℚ))

/-- A 102-point series on which a second `prepare` run clips further:
the recomputed 1st percentile of the once-winsorized series rises. -/
def w102 : List ℚ := [0, 0] ++ List.replicate 99 100 ++ [200]

/-- `winsorize w102`. -/
def w102Once : List ℚ := [1, 1] ++ List.replicate 99 100 ++ [100]

/-- 52 observations with mean 10 and population variance 1 (so
`np.std = 1` exactly): 50 values `49/5` and the values 15 at positions 3
and 4.  The CUSUM statistic crosses `4·std` at indices 3 and 4. -/
def cusumVals : List ℚ :=
  List.replicate 3 (49/5) ++ [15, 15] ++ List.replicate 47 (49/5)

/-- 50 observations with mean 100 and population variance 4 (`np.std = 2`
exactly); the single value 107 has z-score 3.5 and is flagged by no other
statistical rule. -/
def zVals : List ℚ :=
  List.replicate 3 97 ++ List.replicate 13 98 ++ List.replicate 9 99 ++
  List.replicate 11 101 ++ List.replicate 13 102 ++ [107]

/-- A flat series of value 100 with one point set to 200, 37 observations
(spike at position 10): mean `3800/37`, population variance `(600/37)²`. -/
def spikeSeries : List ℚ :=
  List.replicate 10 100 ++ [200] ++ List.replicate 26 100

/-! ## Bridging lemmas between the executable operations and their Mathlib
counterparts -/

theorem minQ_eq_min (a b : ℚ) : minQ a b = min a b := by
  simp [minQ, min_def]

theorem maxQ_eq_max (a b : ℚ) : maxQ a b = max a b := by
  simp [maxQ, max_def]

theorem absQ_eq_abs (a : ℚ) : absQ a = |a| := by
  rcases lt_or_le a 0 with h | h
  · simp [absQ, h, abs_of_neg h]
  · simp [absQ, not_lt.mpr h, abs_of_nonneg h]

theorem ratFloor_eq_floor (q : ℚ) : q.floor = ⌊q⌋ := by
  rw [Rat.floor_def', ← Rat.floor_def]

theorem sampleVar_nonneg (l : List ℚ) : 0 ≤ sampleVar l := by
  unfold sampleVar
  split
  · exact le_refl 0
  · next h =>
    apply div_nonneg
    · exact List.sum_nonneg (by
        intro x hx
        obtain ⟨y, _, rfl⟩ := List.mem_map.mp hx
        exact mul_self_nonneg _)
    · have : (2 : ℚ) ≤ (l.length : ℚ) := by exact_mod_cast Nat.not_lt.mp h
      linarith

theorem clipQ_le_of_le {lo hi : ℚ} (x : ℚ) (h : lo ≤ hi) :
    lo ≤ clipQ lo hi x ∧ clipQ lo hi x ≤ hi := by
  rw [clipQ, minQ_eq_min, maxQ_eq_max]
  constructor
  · exact le_min h (le_max_left _ _)
  · exact min_le_left _ _

theorem clipQ_mono (lo hi : ℚ) : Monotone (clipQ lo hi) := by
  intro x y hxy
  simp only [clipQ, minQ_eq_min, maxQ_eq_max]
  exact min_le_min le_rfl (max_le_max le_rfl hxy)

theorem clipQ_idem {lo hi : ℚ} (h : lo ≤ hi) (x : ℚ) :
    clipQ lo hi (clipQ lo hi x) = clipQ lo hi x := by
  simp only [clipQ, minQ_eq_min, maxQ_eq_max]
  rcases le_total x lo with h1 | h1
  · rw [max_eq_left h1, min_eq_right h, max_self, min_eq_right h]
  · rcases le_total x hi with h2 | h2
    · rw [max_eq_right h1, min_eq_right h2, max_eq_right h1, min_eq_right h2]
    · rw [max_eq_right h1, min_eq_left h2, max_eq_right h, min_self]

theorem sortQ_sorted (l : List ℚ) : (sortQ l).Sorted (· ≤ ·) :=
  List.sorted_insertionSort _ l

theorem sortQ_perm (l : List ℚ) : (sortQ l).Perm l :=
  List.perm_insertionSort _ l

theorem sortQ_length (l : List ℚ) : (sortQ l).length = l.length :=
  (sortQ_perm l).length_eq

theorem sorted_getD_mono {s : List ℚ} (hs : s.Sorted (· ≤ ·)) {i j : ℕ}
    (hij : i ≤ j) (hj : j < s.length) : s.getD i 0 ≤ s.getD j 0 := by
  have hi : i < s.length := lt_of_le_of_lt hij hj
  rw [List.getD_eq_getElem s 0 hi, List.getD_eq_getElem s 0 hj]
  exact hs.rel_get_of_le (a := ⟨i, hi⟩) (b := ⟨j, hj⟩) hij

theorem sortQ_map_mono (f : ℚ → ℚ) (hf : Monotone f) (l : List ℚ) :
    sortQ (l.map f) = (sortQ l).map f := by
  apply List.eq_of_perm_of_sorted
    ((sortQ_perm (l.map f)).trans ((sortQ_perm l).map f).symm)
    (sortQ_sorted (l.map f))
  exact List.Pairwise.map f (fun a b hab => hf hab) (sortQ_sorted l)

theorem filter_length_mono {α : Type} (l : List α) (p q : α → Bool)
    (h : ∀ a ∈ l, p a = true → q a = true) :
    (l.filter p).length ≤ (l.filter q).length := by
  induction l with
  | nil => simp
  | cons a t ih =>
    have ht : ∀ a ∈ t, p a = true → q a = true :=
      fun a ha => h a (List.mem_cons_of_mem _ ha)
    by_cases hp : p a = true
    · rw [List.filter_cons_of_pos hp, List.filter_cons_of_pos (h a (List.mem_cons_self a t) hp)]
      simpa using ih ht
    · rw [List.filter_cons_of_neg (by simpa using hp)]
      by_cases hq : q a = true
      · rw [List.filter_cons_of_pos hq]
        exact le_trans (ih ht) (by simp)
      · rw [List.filter_cons_of_neg (by simpa using hq)]
        exact ih ht

theorem sum_map_div (l : List ℚ) (t : ℚ) : (l.map (· / t)).sum = l.sum / t := by
  induction l with
  | nil => simp
  | cons a s ih => simp [ih, add_div]

theorem filterMap_id_map_some {α : Type} (l : List α) :
    (l.map some).filterMap id = l := by
  rw [List.filterMap_map]
  simpa using List.filterMap_some l

/-! ## Claim C2: short-series rejection in `_prepare_series` -/

/-- C2: the series-preparation operation fails with the insufficient-data
error whenever fewer than `min_length = 100` (the hard-coded domain default)
clean observations remain after dropping missing values; it never silently
proceeds on such input. -/
theorem claim_C2_insufficient_data (raw : List (Option ℚ))
    (h : (raw.filterMap id).length < 100) :
    prepareSeries raw =
      Except.error "insufficient data: series shorter than 100 clean observations" ∧
    ∀ out, prepareSeries raw ≠ Except.ok out := by
  have hmain : prepareSeries raw =
      Except.error "insufficient data: series shorter than 100 clean observations" := by
    unfold prepareSeries
    rw [if_pos h]
  exact ⟨hmain, fun out hok => by rw [hmain] at hok; exact Except.noConfusion hok⟩

/-- C2 witness: a 10-point series has 10 < 100 clean observations and is
rejected. -/
theorem claim_C2_witness :
    ((tenPoints.map some).filterMap id).length < 100 ∧
    prepareSeries (tenPoints.map some) =
      Except.error "insufficient data: series shorter than 100 clean observations" :=
  ⟨by decide, (claim_C2_insufficient_data (tenPoints.map some) (by decide)).1⟩

/-! ## Claim C5: seasonal/trend strength bounds -/

theorem strength_formula_aux (a b : ℚ) (ha : 0 ≤ a) (hb : 0 ≤ b) :
    (0 ≤ if a + b = 0 then (0 : ℚ) else maxQ 0 (minQ 1 (a / (a + b)))) ∧
    ((if a + b = 0 then (0 : ℚ) else maxQ 0 (minQ 1 (a / (a + b)))) ≤ 1) ∧
    (a + b ≠ 0 →
      (if a + b = 0 then (0 : ℚ) else maxQ 0 (minQ 1 (a / (a + b)))) = a / (a + b)) := by
  by_cases h : a + b = 0
  · simp [h]
  · have hpos : 0 < a + b := lt_of_le_of_ne (by linarith) (Ne.symm h)
    have h0 : 0 ≤ a / (a + b) := div_nonneg ha (le_of_lt hpos)
    have h1 : a / (a + b) ≤ 1 := (div_le_one hpos).mpr (by linarith)
    have heq : maxQ 0 (minQ 1 (a / (a + b))) = a / (a + b) := by
      rw [minQ_eq_min, maxQ_eq_max, min_eq_right h1, max_eq_right h0]
    rw [if_neg h, heq]
    exact ⟨h0, h1, fun _ => rfl⟩

/-- C5: both strength scores equal `Var(component) / (Var(component) +
Var(residual))` clamped to `[0,1]` (the clamp is vacuous: the raw ratio already
lies in `[0,1]`), lie in `[0,1]`, and equal 0 when the two variances sum
to 0 (e.g. both components constant).  The length hypotheses keep the
statement inside the regime where `pandas.var` is a number, not `NaN`. -/
theorem claim_C5_strength_bounds (seasonal sresidual trend tresidual : List ℚ)
    (hs : 2 ≤ seasonal.length) (hsr : 2 ≤ sresidual.length)
    (ht : 2 ≤ trend.length) (htr : 2 ≤ tresidual.length) :
    (0 ≤ seasonalStrength seasonal sresidual ∧ seasonalStrength seasonal sresidual ≤ 1) ∧
    (sampleVar seasonal + sampleVar sresidual = 0 → seasonalStrength seasonal sresidual = 0) ∧
    (sampleVar seasonal + sampleVar sresidual ≠ 0 →
      seasonalStrength seasonal sresidual =
        sampleVar seasonal / (sampleVar seasonal + sampleVar sresidual)) ∧
    (0 ≤ trendStrength trend tresidual ∧ trendStrength trend tresidual ≤ 1) ∧
    (sampleVar trend + sampleVar tresidual = 0 → trendStrength trend tresidual = 0) ∧
    (sampleVar trend + sampleVar tresidual ≠ 0 →
      trendStrength trend tresidual =
        sampleVar trend / (sampleVar trend + sampleVar tresidual)) := by
  have h1 := strength_formula_aux (sampleVar seasonal) (sampleVar sresidual)
    (sampleVar_nonneg _) (sampleVar_nonneg _)
  have h2 := strength_formula_aux (sampleVar trend) (sampleVar tresidual)
    (sampleVar_nonneg _) (sampleVar_nonneg _)
  refine ⟨⟨h1.1, h1.2.1⟩, ?_, h1.2.2, ⟨h2.1, h2.2.1⟩, ?_, h2.2.2⟩
  · intro hz
    unfold seasonalStrength
    rw [if_pos hz]
  · intro hz
    unfold trendStrength
    rw [if_pos hz]

/-- C5 witness: a non-degenerate seasonal component against a constant
residual gives strength 1, and a constant trend against a constant residual
gives strength 0. -/
theorem claim_C5_witness :
    (2 ≤ ([1, -1, 1, -1, 0] : List ℚ).length) ∧
    (0 ≤ seasonalStrength [1, -1, 1, -1, 0] [0, 0] ∧
      seasonalStrength [1, -1, 1, -1, 0] [0, 0] ≤ 1) ∧
    sampleVar ([7, 7] : List ℚ) + sampleVar ([0, 0] : List ℚ) = 0 ∧
    trendStrength [7, 7] [0, 0] = 0 :=
  ⟨by decide,
   (claim_C5_strength_bounds [1, -1, 1, -1, 0] [0, 0] [7, 7] [0, 0]
      (by decide) (by decide) (by decide) (by decide)).1,
   by decide,
   (claim_C5_strength_bounds [1, -1, 1, -1, 0] [0, 0] [7, 7] [0, 0]
      (by decide) (by decide) (by decide) (by decide)).2.2.2.2.1
     (by decide)⟩

/-! ## Claim C10: the seven-day Seoul forecast band -/

theorem bankerRound_bounds (q : ℚ) :
    q - 1/2 ≤ (bankerRound q : ℚ) ∧ (bankerRound q : ℚ) ≤ q + 1/2 := by
  unfold bankerRound
  rw [ratFloor_eq_floor]
  have hfl : (⌊q⌋ : ℚ) ≤ q := Int.floor_le q
  have hfu : q < (⌊q⌋ : ℚ) + 1 := Int.lt_floor_add_one q
  by_cases h1 : q - (⌊q⌋ : ℚ) < 1/2
  · rw [if_pos h1]
    constructor <;> [linarith; linarith]
  · rw [if_neg h1]
    by_cases h2 : (1:ℚ)/2 < q - (⌊q⌋ : ℚ)
    · rw [if_pos h2]
      push_cast
      constructor <;> linarith
    · rw [if_neg h2]
      have : q - (⌊q⌋ : ℚ) = 1/2 := le_antisymm (not_lt.mp h2) (not_lt.mp h1)
      by_cases h3 : ⌊q⌋ % 2 = 0
      · rw [if_pos h3]
        constructor <;> linarith
      · rw [if_neg h3]
        push_cast
        constructor <;> linarith

theorem round2_bounds (q : ℚ) : q - 1/200 ≤ round2 q ∧ round2 q ≤ q + 1/200 := by
  obtain ⟨h1, h2⟩ := bankerRound_bounds (q * 100)
  unfold round2
  constructor
  · rw [le_div_iff₀ (by norm_num : (0:ℚ) < 100)]
    linarith
  · rw [div_le_iff₀ (by norm_num : (0:ℚ) < 100)]
    linarith

/-- C10: for a non-negative current price, every forecast day's price is
clipped into `[current - 0.02·day·current, current + 0.02·day·current]`
whatever the trend, seasonal and external component rates are, and the stored
two-decimal rounding stays within the band widened by the half-cent rounding
slack `1/200`. -/
theorem claim_C10_seven_day_band (current trend seasonalFactor externalImpact : ℚ)
    (day : ℕ) (hc : 0 ≤ current) :
    current - current * (2/100) * (day : ℚ) ≤
      sevenDayForecastPrice current trend seasonalFactor externalImpact day ∧
    sevenDayForecastPrice current trend seasonalFactor externalImpact day ≤
      current + current * (2/100) * (day : ℚ) ∧
    current - current * (2/100) * (day : ℚ) - 1/200 ≤
      sevenDayRoundedPrice current trend seasonalFactor externalImpact day ∧
    sevenDayRoundedPrice current trend seasonalFactor externalImpact day ≤
      current + current * (2/100) * (day : ℚ) + 1/200 := by
  have hlim : 0 ≤ current * (2/100) * (day : ℚ) := by positivity
  have hlohi : current - current * (2/100) * (day : ℚ) ≤
      current + current * (2/100) * (day : ℚ) := by linarith
  have hclip := clipQ_le_of_le
    (x := current + trend * current * (day : ℚ) + current * seasonalFactor +
      current * externalImpact + (108/100 - 1) * current * (1/10)) hlohi
  have hdef : sevenDayForecastPrice current trend seasonalFactor externalImpact day =
      clipQ (current - current * (2/100) * (day : ℚ))
        (current + current * (2/100) * (day : ℚ))
        (current + trend * current * (day : ℚ) + current * seasonalFactor +
          current * externalImpact + (108/100 - 1) * current * (1/10)) := rfl
  obtain ⟨hr1, hr2⟩ := round2_bounds
    (sevenDayForecastPrice current trend seasonalFactor externalImpact day)
  rw [hdef] at hr1 hr2 ⊢
  exact ⟨hclip.1, hclip.2,
    by unfold sevenDayRoundedPrice; rw [hdef]; linarith [hclip.1],
    by unfold sevenDayRoundedPrice; rw [hdef]; linarith [hclip.2]⟩

/-- C10 witness: at current price 1700 with huge component rates and day 7 the
price is still confined to the ±14% band (plus rounding slack). -/
theorem claim_C10_witness :
    (0 : ℚ) ≤ 1700 ∧
    1700 - 1700 * (2/100) * ((7 : ℕ) : ℚ) - 1/200 ≤
      sevenDayRoundedPrice 1700 5 3 (-2) 7 ∧
    sevenDayRoundedPrice 1700 5 3 (-2) 7 ≤
      1700 + 1700 * (2/100) * ((7 : ℕ) : ℚ) + 1/200 :=
  ⟨by norm_num,
   (claim_C10_seven_day_band 1700 5 3 (-2) 7 (by norm_num)).2.2.1,
   (claim_C10_seven_day_band 1700 5 3 (-2) 7 (by norm_num)).2.2.2⟩

/-! ## Claim C1: ensemble weight assignment in `ensemble_predict` -/

theorem lookup_mem {m : List (String × ℚ)} {name : String} {v : ℚ}
    (h : m.lookup name = some v) : (name, v) ∈ m := by
  induction m with
  | nil => simp [List.lookup] at h
  | cons p t ih =>
    obtain ⟨k, b⟩ := p
    rw [List.lookup_cons] at h
    by_cases hk : name = k
    · subst hk
      simp at h
      subst h
      exact List.mem_cons_self _ _
    · have : (name == k) = false := beq_false_of_ne hk
      rw [this] at h
      exact List.mem_cons_of_mem _ (ih h)

theorem preWeight_pos (perf : Option (List (String × ℚ))) (name : String)
    (h : ∀ m, perf = some m → ∀ p ∈ m, 0 ≤ p.2) : 0 < preWeight perf name := by
  match perf with
  | none => norm_num [preWeight]
  | some m =>
    have hm : 0 ≤ (m.lookup name).getD 1 := by
      cases hl : m.lookup name with
      | none => norm_num
      | some v => exact h m rfl (name, v) (lookup_mem hl)
    simp only [preWeight]
    positivity

/-- C1 (amended): with at least one surviving model and all recorded MAEs
non-negative, the returned weights sum to exactly 1 (hence within `1e-9`) and
are each non-negative; a model whose MAE is recorded as `mae` gets
pre-normalization weight `1/(1+mae)`; a model *missing* from an existing
performance map falls back to the default MAE of 1, i.e. pre-normalization
weight `1/2` — not 1.0; the weight 1.0 applies only when the whole target has
no performance map; and a model's normalized weight is non-increasing in its
recorded MAE (`R` being the total pre-normalization weight of the other
models). -/
theorem claim_C1_amended (models : List (String × Option (List ℚ)))
    (perf : Option (List (String × ℚ)))
    (hs : survivors models ≠ [])
    (hmae : ∀ m, perf = some m → ∀ p ∈ m, 0 ≤ p.2) :
    (normWeights models perf).sum = 1 ∧
    (∀ w ∈ normWeights models perf, 0 ≤ w) ∧
    (∀ m name mae, perf = some m → m.lookup name = some mae →
      preWeight perf name = 1 / (1 + mae)) ∧
    (∀ m name, perf = some m → m.lookup name = none → preWeight perf name = 1/2) ∧
    (perf = none → ∀ name, preWeight perf name = 1) ∧
    (∀ (name : String) (a b R : ℚ), 0 ≤ a → a ≤ b → 0 ≤ R →
      preWeight (some [(name, b)]) name / (preWeight (some [(name, b)]) name + R) ≤
      preWeight (some [(name, a)]) name / (preWeight (some [(name, a)]) name + R)) := by
  have hwpos : ∀ w ∈ rawWeights models perf, 0 < w := by
    intro w hw
    obtain ⟨p, _, rfl⟩ := List.mem_map.mp hw
    exact preWeight_pos perf p.1 hmae
  have hne : rawWeights models perf ≠ [] := by
    unfold rawWeights
    simpa using hs
  have hsum : 0 < (rawWeights models perf).sum := List.sum_pos _ hwpos hne
  refine ⟨?_, ?_, ?_, ?_, ?_, ?_⟩
  · unfold normWeights
    rw [sum_map_div]
    exact div_self (ne_of_gt hsum)
  · intro w hw
    obtain ⟨x, hx, rfl⟩ := List.mem_map.mp hw
    exact le_of_lt (div_pos (hwpos x hx) hsum)
  · intro m name mae hp hl
    simp [preWeight, hp, hl]
  · intro m name hp hl
    simp [preWeight, hp, hl]
    norm_num
  · intro hp name
    simp [preWeight, hp]
  · intro name a b R ha hab hR
    have hpw : ∀ x : ℚ, preWeight (some [(name, x)]) name = 1 / (1 + x) := by
      intro x
      simp [preWeight, List.lookup]
    rw [hpw a, hpw b]
    have h1a : (0:ℚ) < 1 + a := by linarith
    have h1b : (0:ℚ) < 1 + b := by linarith
    have hwa : (0:ℚ) < 1 / (1 + a) := by positivity
    have hwb : (0:ℚ) < 1 / (1 + b) := by positivity
    have hle : 1 / (1 + b) ≤ 1 / (1 + a) :=
      one_div_le_one_div_of_le h1a (by linarith)
    rw [div_le_div_iff (by linarith) (by linarith)]
    nlinarith

/-- C1 counterexample to the claim as stated: with a recorded performance map
for the target that does not mention `gradient_boosting`, that model's
pre-normalization weight is `1/2`, not the claimed 1.0. -/
theorem claim_C1_counterexample :
    preWeight (some [("random_forest", 0)]) "gradient_boosting" = 1/2 ∧
    preWeight (some [("random_forest", 0)]) "gradient_boosting" ≠ 1 := by
  decide

/-- C1 witness: two surviving models with recorded MAEs 2 and 4 get normalized
weights `5/8` and `3/8`. -/
theorem claim_C1_witness :
    survivors [("random_forest", some [1500]), ("gradient_boosting", some [1490])] ≠ [] ∧
    (normWeights [("random_forest", some [1500]), ("gradient_boosting", some [1490])]
        (some [("random_forest", 2), ("gradient_boosting", 4)])).sum = 1 ∧
    normWeights [("random_forest", some [1500]), ("gradient_boosting", some [1490])]
        (some [("random_forest", 2), ("gradient_boosting", 4)]) = [5/8, 3/8] :=
  ⟨by decide,
   (claim_C1_amended _ (some [("random_forest", 2), ("gradient_boosting", 4)])
      (by decide)
      (by intro m hm p hp
          rw [Option.some_inj] at hm
          subst hm
          rcases List.mem_cons.mp hp with rfl | hp2
          · norm_num
          rcases List.mem_cons.mp hp2 with rfl | hp3
          · norm_num
          · exact absurd hp3 (List.not_mem_nil p))).1,
   by decide⟩

/-! ## Claim C3: zero surviving models -/

/-- C3: when no component model survives, `ensemble_predict` returns the
explicit empty "no forecast" result — never a zero-filled horizon array — and
the caller's per-fuel loop skips exactly that unit while every other unit
proceeds unchanged. -/
theorem claim_C3_no_surviving (models : List (String × Option (List ℚ)))
    (perf : Option (List (String × ℚ)))
    (hs : survivors models = []) :
    ensemblePredict models perf = [] ∧
    (∀ n : ℕ, 1 ≤ n → ensemblePredict models perf ≠ List.replicate n 0) ∧
    (∀ (name : String)
      (rest : List (String × List (String × Option (List ℚ)) × Option (List (String × ℚ)))),
      fuelForecasts ((name, models, perf) :: rest) = fuelForecasts rest) := by
  have hmain : ensemblePredict models perf = [] := by
    unfold ensemblePredict
    rw [hs]
    rfl
  refine ⟨hmain, ?_, ?_⟩
  · intro n hn hEq
    rw [hmain] at hEq
    have : (List.replicate n (0:ℚ)).length = 0 := by rw [← hEq]; rfl
    rw [List.length_replicate] at this
    omega
  · intro name rest
    unfold fuelForecasts
    rw [List.filterMap_cons]
    simp only [hmain]
    rfl

set_option maxRecDepth 10000 in
/-- C3 witness: a model list whose only entry produces no prediction (the
`continue` branch) yields the empty result and is dropped from the per-fuel
output, while another fuel with a surviving model still appears. -/
theorem claim_C3_witness :
    survivors [("lstm", (none : Option (List ℚ)))] = [] ∧
    ensemblePredict [("lstm", none)] none = [] ∧
    fuelForecasts
      [("diesel", [("lstm", none)], none),
       ("gasoline", [("random_forest", some [1500])], none)] =
      [("gasoline", [1500])] :=
  ⟨by decide,
   (claim_C3_no_surviving [("lstm", none)] none (by decide)).1,
   by decide⟩

/-! ## Claim C6: CUSUM level-shift detection (minimum-segment gap) -/

set_option maxRecDepth 10000 in
/-- C6 evaluation at the failing input: `cusumVals` has mean 10 and population
variance 1 (so `np.std = 1` and the crossing threshold is `4·std = 4`), yet
with `min_segment_length = 2` the code reports breaks at indices 3 and 4 —
only one observation apart — because the gap condition
`i - breaks[-1][1] >= min_segment_length` compares against the previous
break's *significance* (`9/8`), not its index.  Both accumulators are reset on
each report (hence the identical significance `9/8` at index 4). -/
theorem claim_C6_gap_violation :
    listMean cusumVals = 10 ∧ popVar cusumVals = 1 ∧
    cusumDetection cusumVals 2 10 1 = [(3, 9/8), (4, 9/8)] := by
  refine ⟨by decide, by decide, ?_⟩
  norm_num [cusumDetection, cusumVals, cusumStep, List.range', minQ, maxQ,
    List.replicate, List.getD, List.getLastD]

/-! ## Claim C7: outlier-count monotonicity -/

theorem interpAt_mono {s : List ℚ} (hs : s.Sorted (· ≤ ·)) {h1 h2 : ℚ}
    (hge : 0 ≤ h1) (h12 : h1 ≤ h2) (hub : h2 ≤ ((s.length - 1 : ℕ) : ℚ))
    (hne : s.length ≠ 0) :
    interpAt s h1 ≤ interpAt s h2 := by
  have hn1 : 1 ≤ s.length := Nat.one_le_iff_ne_zero.mpr hne
  simp only [interpAt, ratFloor_eq_floor]
  have hf1nn : (0 : ℤ) ≤ ⌊h1⌋ := Int.floor_nonneg.mpr hge
  have hf2nn : (0 : ℤ) ≤ ⌊h2⌋ := le_trans hf1nn (Int.floor_le_floor h12)
  set k1 := (⌊h1⌋).toNat with hk1def
  set k2 := (⌊h2⌋).toNat with hk2def
  have hc1 : ((k1 : ℤ) : ℚ) = ((⌊h1⌋ : ℤ) : ℚ) := by
    rw [Int.toNat_of_nonneg hf1nn]
  have hc2 : ((k2 : ℤ) : ℚ) = ((⌊h2⌋ : ℤ) : ℚ) := by
    rw [Int.toNat_of_nonneg hf2nn]
  have hk12 : k1 ≤ k2 := Int.toNat_le_toNat (Int.floor_le_floor h12)
  have hk2lt : k2 < s.length := by
    have hq : ((⌊h2⌋ : ℤ) : ℚ) ≤ (((s.length - 1 : ℕ) : ℤ) : ℚ) := by
      push_cast
      exact le_trans (Int.floor_le h2) (by exact_mod_cast hub)
    have hz : ⌊h2⌋ ≤ ((s.length - 1 : ℕ) : ℤ) := by exact_mod_cast hq
    have : k2 ≤ s.length - 1 := by
      rw [hk2def]
      exact_mod_cast Int.toNat_le_toNat hz
    omega
  have hr1l : (0 : ℚ) ≤ h1 - (⌊h1⌋ : ℚ) := by linarith [Int.floor_le h1]
  have hr1u : h1 - (⌊h1⌋ : ℚ) < 1 := by linarith [Int.lt_floor_add_one h1]
  have hr2l : (0 : ℚ) ≤ h2 - (⌊h2⌋ : ℚ) := by linarith [Int.floor_le h2]
  by_cases hkeq : k1 = k2
  · have hfeq : ⌊h1⌋ = ⌊h2⌋ := by
      rw [← Int.toNat_of_nonneg hf1nn, ← Int.toNat_of_nonneg hf2nn, ← hk1def, ← hk2def, hkeq]
    have hΔ : 0 ≤ s.getD (k1 + 1) (s.getD k1 0) - s.getD k1 0 := by
      by_cases hin : k1 + 1 < s.length
      · rw [List.getD_eq_getElem s 0 (Nat.lt_of_succ_lt hin),
          List.getD_eq_getElem _ _ hin]
        have := hs.rel_get_of_le
          (a := ⟨k1, Nat.lt_of_succ_lt hin⟩) (b := ⟨k1 + 1, hin⟩) (by simp)
        simpa [List.get_eq_getElem] using sub_nonneg.mpr this
      · rw [List.getD_eq_default _ _ (Nat.not_lt.mp hin)]
        simp
    rw [← hkeq, ← hfeq]
    have hmul : 0 ≤ (h2 - h1) * (s.getD (k1 + 1) (s.getD k1 0) - s.getD k1 0) :=
      mul_nonneg (by linarith) hΔ
    nlinarith [hmul]
  · have hk1lt : k1 + 1 ≤ k2 := Nat.succ_le_of_lt (lt_of_le_of_ne hk12 hkeq)
    have hk1in : k1 + 1 < s.length := lt_of_le_of_lt hk1lt hk2lt
    have hk1in0 : k1 < s.length := Nat.lt_of_succ_lt hk1in
    have hv01 : s.getD k1 0 ≤ s.getD (k1 + 1) (s.getD k1 0) := by
      rw [List.getD_eq_getElem s 0 hk1in0, List.getD_eq_getElem _ _ hk1in]
      have := hs.rel_get_of_le (a := ⟨k1, hk1in0⟩) (b := ⟨k1 + 1, hk1in⟩) (by simp)
      simpa [List.get_eq_getElem] using this
    have hstep1 : s.getD k1 0 + (h1 - (⌊h1⌋ : ℚ)) *
        (s.getD (k1 + 1) (s.getD k1 0) - s.getD k1 0) ≤ s.getD (k1 + 1) (s.getD k1 0) := by
      nlinarith [sub_nonneg.mpr hv01]
    have hstep2 : s.getD (k1 + 1) (s.getD k1 0) ≤ s.getD k2 0 := by
      rw [List.getD_eq_getElem _ _ hk1in, List.getD_eq_getElem s 0 hk2lt]
      have := hs.rel_get_of_le (a := ⟨k1 + 1, hk1in⟩) (b := ⟨k2, hk2lt⟩) hk1lt
      simpa [List.get_eq_getElem] using this
    have hΔ2 : 0 ≤ s.getD (k2 + 1) (s.getD k2 0) - s.getD k2 0 := by
      by_cases hin : k2 + 1 < s.length
      · rw [List.getD_eq_getElem s 0 (Nat.lt_of_succ_lt hin),
          List.getD_eq_getElem _ _ hin]
        have := hs.rel_get_of_le
          (a := ⟨k2, Nat.lt_of_succ_lt hin⟩) (b := ⟨k2 + 1, hin⟩) (by simp)
        simpa [List.get_eq_getElem] using sub_nonneg.mpr this
      · rw [List.getD_eq_default _ _ (Nat.not_lt.mp hin)]
        simp
    have hstep3 : s.getD k2 0 ≤ s.getD k2 0 + (h2 - (⌊h2⌋ : ℚ)) *
        (s.getD (k2 + 1) (s.getD k2 0) - s.getD k2 0) := by
      nlinarith
    linarith

theorem quantile_mono (l : List ℚ) {q1 q2 : ℚ} (hge : 0 ≤ q1) (h12 : q1 ≤ q2)
    (hub : q2 ≤ 1) : quantile q1 l ≤ quantile q2 l := by
  unfold quantile
  by_cases hn : (sortQ l).length = 0
  · simp [hn]
  · rw [if_neg hn, if_neg hn]
    have hc : (0 : ℚ) ≤ (((sortQ l).length - 1 : ℕ) : ℚ) := Nat.cast_nonneg _
    exact interpAt_mono (sortQ_sorted l)
      (mul_nonneg hge hc)
      (mul_le_mul_of_nonneg_right h12 hc)
      (by calc q2 * (((sortQ l).length - 1 : ℕ) : ℚ)
            ≤ 1 * (((sortQ l).length - 1 : ℕ) : ℚ) := mul_le_mul_of_nonneg_right hub hc
          _ = (((sortQ l).length - 1 : ℕ) : ℚ) := one_mul _)
      hn

/-- C7 (amended): for the statistical method, raising the z-threshold can only
*shrink* the flagged set — the count is non-increasing, not non-decreasing, in
the threshold; for the density/partition method, with the fitted anomaly
scores fixed, raising `contamination` raises the score percentile below which
points are flagged, so the count is non-decreasing in `contamination` exactly
as claimed. -/
theorem claim_C7_amended :
    (∀ (values : List ℚ) (std t1 t2 : ℚ), t1 ≤ t2 →
      (statisticalDetection values std t2).indices.length ≤
      (statisticalDetection values std t1).indices.length) ∧
    (∀ (scores : List ℚ) (c1 c2 : ℚ), 0 ≤ c1 → c1 ≤ c2 → c2 ≤ 1 →
      isoFlaggedCount scores c1 ≤ isoFlaggedCount scores c2) := by
  constructor
  · intro values std t1 t2 h12
    simp only [statisticalDetection]
    apply filter_length_mono
    intro i _ hmask
    simp only [Bool.or_eq_true] at hmask ⊢
    rcases hmask with ((hz | hmad) | hiqr) | hhi
    · refine Or.inl (Or.inl (Or.inl ?_))
      rw [decide_eq_true_eq] at hz ⊢
      exact lt_of_le_of_lt h12 hz
    · exact Or.inl (Or.inl (Or.inr hmad))
    · exact Or.inl (Or.inr hiqr)
    · exact Or.inr hhi
  · intro scores c1 c2 h0 h12 hub
    unfold isoFlaggedCount
    apply filter_length_mono
    intro a _ hlt
    simp only [decide_eq_true_eq] at hlt ⊢
    exact lt_of_lt_of_le hlt (quantile_mono scores h0 h12 hub)

set_option maxRecDepth 10000 in
/-- C7 counterexample to the claim as stated: on `zVals` (mean 100,
`np.std = 2`) the statistical method flags one point (z-score 3.5) at
threshold 3 but none at the larger threshold 4 — increasing the threshold
*decreases* the reported outlier count. -/
theorem claim_C7_counterexample :
    listMean zVals = 100 ∧ popVar zVals = 4 ∧
    (statisticalDetection zVals 2 4).indices.length <
      (statisticalDetection zVals 2 3).indices.length := by
  decide

set_option maxRecDepth 10000 in
/-- C7 witness: the amended monotonicity applied at concrete inputs. -/
theorem claim_C7_witness :
    ((3 : ℚ) ≤ 4 ∧
      (statisticalDetection zVals 2 4).indices.length ≤
      (statisticalDetection zVals 2 3).indices.length) ∧
    ((0 : ℚ) ≤ 1/4 ∧ (1/4 : ℚ) ≤ 3/4 ∧ (3/4 : ℚ) ≤ 1 ∧
      isoFlaggedCount [5, 7, 11, 13] (1/4) ≤ isoFlaggedCount [5, 7, 11, 13] (3/4)) :=
  ⟨⟨by norm_num, claim_C7_amended.1 zVals 2 3 4 (by norm_num)⟩,
   ⟨by norm_num, by norm_num, by norm_num,
    claim_C7_amended.2 [5, 7, 11, 13] (1/4) (3/4) (by norm_num) (by norm_num) (by norm_num)⟩⟩

/-! ## Claim C8: idempotence of `prepare` -/

theorem quantile_nat (l : List ℚ) (k : ℕ) {q : ℚ}
    (hq : q * (((sortQ l).length - 1 : ℕ) : ℚ) = (k : ℚ))
    (hne : (sortQ l).length ≠ 0) :
    quantile q l = (sortQ l).getD k 0 := by
  simp only [quantile, interpAt]
  rw [if_neg hne, hq, ratFloor_eq_floor]
  rw [Int.floor_natCast]
  simp

theorem getD_map_lt (f : ℚ → ℚ) (s : List ℚ) {k : ℕ} (hk : k < s.length) :
    (s.map f).getD k 0 = f (s.getD k 0) := by
  rw [List.getD_eq_getElem _ _ (by simpa using hk), List.getElem_map,
    List.getD_eq_getElem _ _ hk]

/-- C8 (amended): `prepare` is idempotent when the 1st/99th percentile
interpolation positions `0.01·(n-1)` and `0.99·(n-1)` are integral, i.e. when
`n ≡ 1 (mod 100)`: the once-winsorized series is returned unchanged by a
second run.  (In general the percentiles are recomputed on the clipped output
and a second run clips further — see the counterexample.) -/
theorem claim_C8_amended (l : List ℚ) (hn : 100 ≤ l.length)
    (hmod : (l.length - 1) % 100 = 0) :
    prepareSeries (l.map some) = Except.ok (winsorize l) ∧
    prepareSeries ((winsorize l).map some) = Except.ok (winsorize l) := by
  have hclean : (l.map some).filterMap id = l := filterMap_id_map_some l
  have hfirst : prepareSeries (l.map some) = Except.ok (winsorize l) := by
    unfold prepareSeries
    rw [hclean, if_neg (Nat.not_lt.mpr hn)]
  set k := (l.length - 1) / 100 with hkdef
  have hk : 100 * k = l.length - 1 := by
    have := Nat.dvd_of_mod_eq_zero hmod
    omega
  have hslen : (sortQ l).length = l.length := sortQ_length l
  have hne : (sortQ l).length ≠ 0 := by omega
  have hcast1 : (((sortQ l).length - 1 : ℕ) : ℚ) = ((100 * k : ℕ) : ℚ) := by
    rw [hslen, ← hk]
  have ha : quantile (1/100) l = (sortQ l).getD k 0 := by
    apply quantile_nat l k _ hne
    rw [hcast1]
    push_cast
    ring
  have hb : quantile (99/100) l = (sortQ l).getD (99 * k) 0 := by
    apply quantile_nat l (99 * k) _ hne
    rw [hcast1]
    push_cast
    ring
  have h99lt : 99 * k < (sortQ l).length := by omega
  have hk99 : k ≤ 99 * k := Nat.le_mul_of_pos_left k (by norm_num)
  have hab : quantile (1/100) l ≤ quantile (99/100) l := by
    rw [ha, hb]
    exact sorted_getD_mono (sortQ_sorted l) hk99 h99lt
  set a := quantile (1/100) l with hadef
  set b := quantile (99/100) l with hbdef
  have hwdef : winsorize l = l.map (clipQ a b) := rfl
  have hwlen : (winsorize l).length = l.length := by
    rw [hwdef, List.length_map]
  have hsort2 : sortQ (winsorize l) = (sortQ l).map (clipQ a b) := by
    rw [hwdef]
    exact sortQ_map_mono _ (clipQ_mono a b) l
  have hslen2 : (sortQ (winsorize l)).length = l.length := by
    rw [hsort2, List.length_map, hslen]
  have hne2 : (sortQ (winsorize l)).length ≠ 0 := by omega
  have hcast2 : (((sortQ (winsorize l)).length - 1 : ℕ) : ℚ) = ((100 * k : ℕ) : ℚ) := by
    rw [hslen2, ← hk]
  have hklt : k < (sortQ l).length := lt_of_le_of_lt hk99 h99lt
  have ha2 : quantile (1/100) (winsorize l) = a := by
    rw [quantile_nat (winsorize l) k (by rw [hcast2]; push_cast; ring) hne2, hsort2,
      getD_map_lt _ _ hklt, ← ha]
    show clipQ a b a = a
    rw [clipQ, maxQ_eq_max, minQ_eq_min, max_self, min_eq_right hab]
  have hb2 : quantile (99/100) (winsorize l) = b := by
    rw [quantile_nat (winsorize l) (99 * k) (by rw [hcast2]; push_cast; ring) hne2, hsort2,
      getD_map_lt _ _ h99lt, ← hb]
    show clipQ a b b = b
    rw [clipQ, maxQ_eq_max, minQ_eq_min, max_eq_right hab, min_self]
  have hidem : winsorize (winsorize l) = winsorize l := by
    have houter : winsorize (winsorize l) =
        (winsorize l).map
          (clipQ (quantile (1/100) (winsorize l)) (quantile (99/100) (winsorize l))) := rfl
    rw [houter, ha2, hb2, hwdef, List.map_map]
    exact List.map_congr_left (fun x _ => clipQ_idem hab x)
  have hclean2 : ((winsorize l).map some).filterMap id = winsorize l :=
    filterMap_id_map_some _
  refine ⟨hfirst, ?_⟩
  unfold prepareSeries
  rw [hclean2, if_neg (by omega), hidem]

set_option maxRecDepth 10000 in
/-- C8 counterexample to the claim as stated: on the 102-point series `w102`
the first run clips to `[1, 100]` (the percentile positions fall between
ranks), but the second run recomputes the 1st percentile of the clipped series
as `1.99` and clips further — `prepare` is not idempotent. -/
theorem claim_C8_counterexample :
    prepareSeries (w102.map some) = Except.ok w102Once ∧
    prepareSeries (w102Once.map some) ≠ Except.ok w102Once := by
  decide

set_option maxRecDepth 10000 in
/-- C8 witness: on a 101-point series (`n ≡ 1 (mod 100)`) a second run returns
the prepared series unchanged. -/
theorem claim_C8_witness :
    100 ≤ w101.length ∧ (w101.length - 1) % 100 = 0 ∧
    (prepareSeries (w101.map some) = Except.ok (winsorize w101) ∧
      prepareSeries ((winsorize w101).map some) = Except.ok (winsorize w101)) :=
  ⟨by decide, by decide, claim_C8_amended w101 (by decide) (by decide)⟩

/-! ## Claim C4: vote-based ensemble outlier detection -/

theorem zipFilter_nil_of_not_mem {β : Type} :
    ∀ (is : List ℕ) (ss : List β) (idx : ℕ), idx ∉ is →
      (is.zip ss).filterMap (fun p => if p.1 = idx then some p.2 else none) = [] := by
  intro is
  induction is with
  | nil => intro ss idx _; simp
  | cons i it ih =>
    intro ss idx hmem
    cases ss with
    | nil => simp
    | cons s st =>
      have hne : ¬ (i = idx) := fun h => hmem (h ▸ List.mem_cons_self i it)
      rw [List.zip_cons_cons, List.filterMap_cons, if_neg hne]
      exact ih st idx (fun h => hmem (List.mem_cons_of_mem _ h))

theorem zipFilter_len_one {β : Type} :
    ∀ (is : List ℕ) (ss : List β) (idx : ℕ), is.Nodup → is.length = ss.length →
      idx ∈ is →
      ((is.zip ss).filterMap (fun p => if p.1 = idx then some p.2 else none)).length
        = 1 := by
  intro is
  induction is with
  | nil => intro ss idx _ _ h; cases h
  | cons i it ih =>
    intro ss idx hnd hlen hmem
    cases ss with
    | nil => simp at hlen
    | cons s st =>
      rw [List.zip_cons_cons, List.filterMap_cons]
      by_cases hi : i = idx
      · rw [if_pos hi]
        have hnotin : idx ∉ it := hi ▸ (List.nodup_cons.mp hnd).1
        rw [zipFilter_nil_of_not_mem it st idx hnotin]
        rfl
      · rw [if_neg hi]
        refine ih st idx (List.nodup_cons.mp hnd).2 (by simpa using hlen) ?_
        rcases List.mem_cons.mp hmem with h | h
        · exact absurd h.symm hi
        · exact h

theorem zipFilter_map_g {β γ : Type} (g : β → γ) (idx : ℕ) :
    ∀ (l : List (ℕ × β)),
      l.filterMap (fun p => if p.1 = idx then some (g p.2) else none) =
      (l.filterMap (fun p => if p.1 = idx then some p.2 else none)).map g := by
  intro l
  induction l with
  | nil => rfl
  | cons p t ih =>
    rw [List.filterMap_cons, List.filterMap_cons]
    by_cases hp : p.1 = idx
    · rw [if_pos hp, if_pos hp, List.map_cons, ih]
    · rw [if_neg hp, if_neg hp, ih]

theorem length_one_eq_headD {γ : Type} (l : List γ) (d : γ) (h : l.length = 1) :
    l = [l.headD d] := by
  cases l with
  | nil => simp at h
  | cons a t =>
    cases t with
    | nil => rfl
    | cons b u => simp at h

theorem methodHits_eq (r : DetResult) (idx : ℕ) (hnd : r.indices.Nodup)
    (hlen : r.indices.length = r.scores.length) :
    methodHits r idx = if idx ∈ r.indices then [methodScore r idx] else [] := by
  by_cases hm : idx ∈ r.indices
  · rw [if_pos hm]
    exact length_one_eq_headD _ 0 (zipFilter_len_one r.indices r.scores idx hnd hlen hm)
  · rw [if_neg hm]
    exact zipFilter_nil_of_not_mem r.indices r.scores idx hm

theorem methodType_tags (name : String) (r : DetResult) (idx : ℕ)
    (hnd : r.indices.Nodup) (hlen : r.indices.length = r.types.length) :
    methodTags name r idx =
      if idx ∈ r.indices then [name ++ ":" ++ methodType r idx] else [] := by
  have hrw : methodTags name r idx =
      ((r.indices.zip r.types).filterMap
        (fun p => if p.1 = idx then some p.2 else none)).map
        (fun t => name ++ ":" ++ t) :=
    zipFilter_map_g (fun t => name ++ ":" ++ t) idx (r.indices.zip r.types)
  by_cases hm : idx ∈ r.indices
  · rw [if_pos hm, hrw,
      length_one_eq_headD _ ""
        (zipFilter_len_one r.indices r.types idx hnd hlen hm)]
    rfl
  · rw [if_neg hm, hrw, zipFilter_nil_of_not_mem r.indices r.types idx hm]
    rfl

theorem voteCount_eq (rs : List (String × DetResult)) (idx : ℕ)
    (hnd : ∀ r ∈ rs, r.2.indices.Nodup) :
    voteCount rs idx = (contributing rs idx).length := by
  induction rs with
  | nil => rfl
  | cons r rt ih =>
    have hr := hnd r (List.mem_cons_self r rt)
    have ht := fun x hx => hnd x (List.mem_cons_of_mem r hx)
    unfold voteCount contributing at ih ⊢
    rw [List.map_cons, List.sum_cons, List.filter_cons]
    by_cases hm : idx ∈ r.2.indices
    · rw [List.count_eq_one_of_mem hr hm,
        if_pos (show decide (idx ∈ r.2.indices) = true by simpa using hm),
        List.length_cons, ih ht]
      omega
    · rw [List.count_eq_zero_of_not_mem hm,
        if_neg (show ¬ decide (idx ∈ r.2.indices) = true by simpa using hm),
        ih ht]
      omega

theorem scoreSum_eq (rs : List (String × DetResult)) (idx : ℕ)
    (hnd : ∀ r ∈ rs, r.2.indices.Nodup)
    (hlen : ∀ r ∈ rs, r.2.indices.length = r.2.scores.length) :
    scoreSum rs idx =
      ((contributing rs idx).map (fun r => methodScore r.2 idx)).sum := by
  induction rs with
  | nil => rfl
  | cons r rt ih =>
    have hr := methodHits_eq r.2 idx (hnd r (List.mem_cons_self r rt))
      (hlen r (List.mem_cons_self r rt))
    have ihr := ih (fun x hx => hnd x (List.mem_cons_of_mem r hx))
      (fun x hx => hlen x (List.mem_cons_of_mem r hx))
    unfold scoreSum contributing at ihr ⊢
    rw [List.map_cons, List.sum_cons, List.filter_cons]
    by_cases hm : idx ∈ r.2.indices
    · rw [hr, if_pos hm,
        if_pos (show decide (idx ∈ r.2.indices) = true by simpa using hm), ihr]
      simp
    · rw [hr, if_neg hm,
        if_neg (show ¬ decide (idx ∈ r.2.indices) = true by simpa using hm), ihr]
      simp

theorem tagJoin_eq (rs : List (String × DetResult)) (idx : ℕ)
    (hnd : ∀ r ∈ rs, r.2.indices.Nodup)
    (hlen : ∀ r ∈ rs, r.2.indices.length = r.2.types.length) :
    tagJoin rs idx =
      (contributing rs idx).map (fun r => r.1 ++ ":" ++ methodType r.2 idx) := by
  induction rs with
  | nil => rfl
  | cons r rt ih =>
    have hr := methodType_tags r.1 r.2 idx (hnd r (List.mem_cons_self r rt))
      (hlen r (List.mem_cons_self r rt))
    have ihr := ih (fun x hx => hnd x (List.mem_cons_of_mem r hx))
      (fun x hx => hlen x (List.mem_cons_of_mem r hx))
    unfold tagJoin contributing at ihr ⊢
    rw [List.map_cons, List.flatten_cons, List.filter_cons]
    by_cases hm : idx ∈ r.2.indices
    · rw [hr, if_pos hm,
        if_pos (show decide (idx ∈ r.2.indices) = true by simpa using hm), ihr]
      rfl
    · rw [hr, if_neg hm,
        if_neg (show ¬ decide (idx ∈ r.2.indices) = true by simpa using hm), ihr]
      rfl

theorem combine_mem_iff (rs : List (String × DetResult)) (minVotes : ℕ) (idx : ℕ) :
    idx ∈ (combineVotes rs minVotes).indices ↔
      idx ∈ allIdx rs ∧ minVotes ≤ voteCount rs idx := by
  unfold combineVotes
  simp [List.mem_filter]

theorem getD_map_general {α β : Type} (f : α → β) (s : List α) (d1 : α) (d2 : β)
    {k : ℕ} (hk : k < s.length) : (s.map f).getD k d2 = f (s.getD k d1) := by
  rw [List.getD_eq_getElem _ _ (by simpa using hk), List.getElem_map,
    List.getD_eq_getElem _ _ hk]


set_option maxRecDepth 10000 in
theorem spike_stat_result :
    statisticalDetection spikeSeries (600/37) 3 =
      { indices := [10], scores := [6], types := ["statistical"] } := by
  decide

set_option maxRecDepth 10000 in
theorem spike_consec : detectConsecutiveChanges spikeSeries = some [] := by
  decide

set_option maxRecDepth 10000 in
theorem spike_rule1 :
    domainRule1 spikeSeries = [(10, 1, "daily_spike"), (11, 1/2, "daily_spike")] := by
  decide

set_option maxRecDepth 10000 in
theorem spike_vol :
    (((List.range spikeSeries.length).filter (volatilityFlag spikeSeries)).filter
      (fun i => decide (∀ q ∈ domainRule1 spikeSeries, q.1 ≠ i))) =
      [12, 13, 14, 15, 16] := by
  decide

theorem spike_domain_indices (rollStd : ℕ → ℚ) :
    (domainDetection spikeSeries rollStd).indices = [10, 11, 12, 13, 14, 15, 16] := by
  have hR12 : domainRule12 spikeSeries rollStd =
      [(10, 1, "daily_spike"), (11, 1/2, "daily_spike"),
       (12, rollStd 12, "volatility_spike"), (13, rollStd 13, "volatility_spike"),
       (14, rollStd 14, "volatility_spike"), (15, rollStd 15, "volatility_spike"),
       (16, rollStd 16, "volatility_spike")] := by
    unfold domainRule12
    rw [spike_vol, spike_rule1]
    rfl
  have hDE : domainEntries spikeSeries rollStd [] = domainRule12 spikeSeries rollStd := by
    unfold domainEntries
    rfl
  unfold domainDetection
  rw [spike_consec]
  show (let entries := domainEntries spikeSeries rollStd [];
    if entries.any (fun p => decide (spikeSeries.length ≤ p.1)) then emptyDet
    else { indices := entries.map (·.1), scores := entries.map (fun p => p.2.1),
           types := entries.map (fun p => p.2.2) }).indices = _
  rw [hDE, hR12]
  have hlen : spikeSeries.length = 37 := by decide
  rw [hlen]
  norm_num

set_option maxRecDepth 10000 in
/-- C4: (general part) the ensemble combination keeps exactly the indices seen
by some method and voted for by at least `min_votes` of the (duplicate-free)
component results; every kept index's score is the arithmetic mean of the
contributing methods' scores for it, and its type label is the comma-joined
concatenation of the contributing `method:type` tags.  (Scenario part) on the
flat-100 series with one point set to 200, the spike is flagged by the
statistical method (z-score 6 > 3), and — whatever the isolation-forest result
and rolling-std values are — by the ensemble method, having votes from both
the statistical and the domain method. -/
theorem claim_C4_ensemble_detection :
    (∀ (rs : List (String × DetResult)) (minVotes : ℕ),
      (∀ r ∈ rs, r.2.indices.Nodup) →
      (∀ r ∈ rs, r.2.indices.length = r.2.scores.length) →
      (∀ r ∈ rs, r.2.indices.length = r.2.types.length) →
      (∀ idx, idx ∈ (combineVotes rs minVotes).indices ↔
        idx ∈ allIdx rs ∧ minVotes ≤ (contributing rs idx).length) ∧
      (∀ k, k < (combineVotes rs minVotes).indices.length →
        (combineVotes rs minVotes).scores.getD k 0 =
          ((contributing rs ((combineVotes rs minVotes).indices.getD k 0)).map
            (fun r => methodScore r.2 ((combineVotes rs minVotes).indices.getD k 0))).sum /
          ((contributing rs ((combineVotes rs minVotes).indices.getD k 0)).length : ℚ) ∧
        (combineVotes rs minVotes).types.getD k "" =
          String.intercalate ","
            ((contributing rs ((combineVotes rs minVotes).indices.getD k 0)).map
              (fun r => r.1 ++ ":" ++
                methodType r.2 ((combineVotes rs minVotes).indices.getD k 0))))) ∧
    (∀ (rollStd : ℕ → ℚ) (isoR : DetResult),
      10 ∈ (statisticalDetection spikeSeries (600/37) 3).indices ∧
      listMean spikeSeries = 3800/37 ∧
      popVar spikeSeries = (600/37) * (600/37) ∧
      10 ∈ (ensembleDetection spikeSeries (600/37) rollStd isoR 2).indices) := by
  constructor
  · intro rs minVotes hnd hsl htl
    constructor
    · intro idx
      rw [combine_mem_iff, voteCount_eq rs idx hnd]
    · intro k hk
      have hsc : (combineVotes rs minVotes).scores =
          (combineVotes rs minVotes).indices.map
            (fun idx => scoreSum rs idx / (voteCount rs idx : ℚ)) := rfl
      have hty : (combineVotes rs minVotes).types =
          (combineVotes rs minVotes).indices.map
            (fun idx => String.intercalate "," (tagJoin rs idx)) := rfl
      constructor
      · rw [hsc, getD_map_general _ _ 0 0 hk,
          scoreSum_eq rs _ hnd hsl, voteCount_eq rs _ hnd]
      · rw [hty, getD_map_general _ _ 0 "" hk, tagJoin_eq rs _ hnd htl]
  · intro rollStd isoR
    refine ⟨by rw [spike_stat_result]; exact List.mem_singleton.mpr rfl,
      by decide, by decide, ?_⟩
    unfold ensembleDetection
    rw [combine_mem_iff]
    constructor
    · unfold allIdx
      rw [List.mem_dedup, List.mem_flatten]
      refine ⟨(statisticalDetection spikeSeries (600/37) 3).indices, ?_, ?_⟩
      · simp
      · rw [spike_stat_result]
        exact List.mem_singleton.mpr rfl
    · unfold voteCount
      rw [spike_stat_result]
      simp only [List.map_cons, List.map_nil, List.sum_cons, List.sum_nil]
      rw [spike_domain_indices rollStd]
      have h1 : List.count 10 [10] = 1 := by decide
      have h2 : List.count 10 [10, 11, 12, 13, 14, 15, 16] = 1 := by decide
      show 2 ≤ isoR.indices.count 10 +
        (List.count 10 [10] + (List.count 10 [10, 11, 12, 13, 14, 15, 16] + 0))
      rw [h1, h2]
      omega

set_option maxRecDepth 10000 in
/-- C4 witness: three concrete duplicate-free component results; index 2 is
kept with two votes, its score is the mean `(4 + 7)/2` of the statistical and
domain scores and its type the joined tags; and the scenario instantiated with
an empty isolation-forest result still flags the spike. -/
theorem claim_C4_witness :
    (∀ r ∈ [("iso", ({ indices := [0], scores := [5], types := ["isolation_forest"] } : DetResult)),
            ("stat", { indices := [0, 2], scores := [3, 4], types := ["statistical", "statistical"] }),
            ("domain", { indices := [2], scores := [7], types := ["daily_spike"] })],
        r.2.indices.Nodup) ∧
    (2 ∈ (combineVotes
      [("iso", { indices := [0], scores := [5], types := ["isolation_forest"] }),
       ("stat", { indices := [0, 2], scores := [3, 4], types := ["statistical", "statistical"] }),
       ("domain", { indices := [2], scores := [7], types := ["daily_spike"] })] 2).indices ↔
      2 ∈ allIdx
        [("iso", { indices := [0], scores := [5], types := ["isolation_forest"] }),
         ("stat", { indices := [0, 2], scores := [3, 4], types := ["statistical", "statistical"] }),
         ("domain", { indices := [2], scores := [7], types := ["daily_spike"] })] ∧
      2 ≤ (contributing
        [("iso", { indices := [0], scores := [5], types := ["isolation_forest"] }),
         ("stat", { indices := [0, 2], scores := [3, 4], types := ["statistical", "statistical"] }),
         ("domain", { indices := [2], scores := [7], types := ["daily_spike"] })] 2).length) ∧
    (10 ∈ (ensembleDetection spikeSeries (600/37) (fun _ => 0) emptyDet 2).indices) :=
  ⟨by intro r hr
      rcases List.mem_cons.mp hr with rfl | hr2
      · decide
      rcases List.mem_cons.mp hr2 with rfl | hr3
      · decide
      rcases List.mem_cons.mp hr3 with rfl | hr4
      · decide
      · exact absurd hr4 (List.not_mem_nil r),
   ((claim_C4_ensemble_detection.1 _ 2 (by decide) (by decide) (by decide)).1 2),
   (claim_C4_ensemble_detection.2 (fun _ => 0) emptyDet).2.2.2⟩

/-! ## Claim C9: ARIMA forecast bands and dates -/

/-- C9: for a fitted model whose underlying forecast produced no native
confidence bounds, every step's band is the point forecast ∓ `1.96 ×` the
in-sample residual standard deviation (`rstd`, the square root of the `ddof=1`
residual variance), and the forecast dates are the contiguous daily range
starting the day after the last training observation. -/
theorem claim_C9_forecast_fallback (forecastValues residuals : List ℚ) (rstd : ℚ)
    (lastDate steps : ℕ)
    (hlen : forecastValues.length = steps)
    (hstd : 0 ≤ rstd ∧ rstd * rstd = sampleVar residuals) :
    ∃ r, arimaForecast true forecastValues none rstd lastDate steps = Except.ok r ∧
      r.series.length = steps ∧ r.confidence.length = steps ∧
      (∀ i, i < steps →
        r.series.getD i (0, 0) = (lastDate + 1 + i, forecastValues.getD i 0)) ∧
      (∀ i, i < steps →
        r.confidence.getD i (0, 0, 0) =
          (lastDate + 1 + i,
           forecastValues.getD i 0 - 49/25 * rstd,
           forecastValues.getD i 0 + 49/25 * rstd)) := by
  have hdates : ((List.range steps).map (fun i => lastDate + 1 + i)).length = steps := by
    simp
  have hser : (((List.range steps).map (fun i => lastDate + 1 + i)).zip
      forecastValues).length = steps := by
    rw [List.length_zip, hdates, hlen, min_self]
  refine ⟨_, rfl, hser, by simpa using hser, ?_, ?_⟩
  · intro i hi
    have h1 : i < (((List.range steps).map (fun i => lastDate + 1 + i)).zip
        forecastValues).length := by rw [hser]; exact hi
    rw [List.getD_eq_getElem _ _ h1, List.getElem_zip, List.getElem_map,
      List.getElem_range, List.getD_eq_getElem _ _ (by rw [hlen]; exact hi)]
  · intro i hi
    have h1 : i < (((List.range steps).map (fun i => lastDate + 1 + i)).zip
        forecastValues).length := by rw [hser]; exact hi
    have h2 : i < ((((List.range steps).map (fun i => lastDate + 1 + i)).zip
        forecastValues).map
        (fun p => (p.1, p.2 - 49/25 * rstd, p.2 + 49/25 * rstd))).length := by
      rw [List.length_map, hser]; exact hi
    show ((((List.range steps).map (fun i => lastDate + 1 + i)).zip forecastValues).map
        (fun p => (p.1, p.2 - 49/25 * rstd, p.2 + 49/25 * rstd))).getD i (0, 0, 0) = _
    rw [List.getD_eq_getElem _ _ h2, List.getElem_map, List.getElem_zip,
      List.getElem_map, List.getElem_range, List.getD_eq_getElem _ _ (by rw [hlen]; exact hi)]

/-- C9 witness: two forecast steps after day 737, with residuals of sample
variance 1 (`rstd = 1`): bands are point ∓ 1.96 and dates are days 738, 739. -/
theorem claim_C9_witness :
    ([1000, 1001] : List ℚ).length = 2 ∧
    (0 : ℚ) ≤ 1 ∧ (1 : ℚ) * 1 = sampleVar [1, -1, 1, -1, 0] ∧
    ∃ r, arimaForecast true [1000, 1001] none 1 737 2 = Except.ok r ∧
      r.series.length = 2 ∧ r.confidence.length = 2 ∧
      (∀ i, i < 2 →
        r.series.getD i (0, 0) = (737 + 1 + i, ([1000, 1001] : List ℚ).getD i 0)) ∧
      (∀ i, i < 2 →
        r.confidence.getD i (0, 0, 0) =
          (737 + 1 + i,
           ([1000, 1001] : List ℚ).getD i 0 - 49/25 * 1,
           ([1000, 1001] : List ℚ).getD i 0 + 49/25 * 1)) :=
  ⟨rfl, by norm_num, by decide,
   claim_C9_forecast_fallback [1000, 1001] [1, -1, 1, -1, 0] 1 737 2 rfl
     ⟨by norm_num, by decide⟩⟩

end OilForecast
